import Mathlib

/-!
Shallow embedding of the calendar timeline layout and interaction engine of a
month-view task scheduler (TypeScript/React), together with proofs of its
specified properties.

Dates: the source passes calendar dates around as ISO "YYYY-MM-DD" strings and
as JS Date values normalized to midnight, and all arithmetic on them is pure
civil-date arithmetic (date-fns parseISO, format, addDays, differenceInDays,
comparisons).  For yyyy-MM-dd strings lexicographic order coincides with
chronological order, so the embedding represents a civil date by its day
number (days since 1970-01-01); parseISO and format become the identity and
string comparison becomes integer comparison.
-/

namespace Scheduler

/-- A civil calendar date, embedded as days since 1970-01-01 (a Thursday). -/
abbrev CivilDate := Int

/-- Gregorian leap-year test. -/
def isLeapYear (y : Int) : Bool :=
  y % 4 == 0 && (y % 100 != 0 || y % 400 == 0)

/-- Number of days in a Gregorian month (m = 1..12). -/
def daysInMonth (y : Int) (m : Nat) : Nat :=
  match m with
  | 2 => if isLeapYear y then 29 else 28
  | 4 | 6 | 9 | 11 => 30
  | _ => 31

/-- Day number (days since 1970-01-01) of the civil date y-m-d
(the standard era-based conversion used by civil-date libraries). -/
def daysFromCivil (y : Int) (m : Nat) (d : Nat) : Int :=
  let yA : Int := if m ≤ 2 then y - 1 else y
  let era : Int := Int.fdiv yA 400
  let yoe : Int := yA - era * 400
  let mp : Int := if m > 2 then (m : Int) - 3 else (m : Int) + 9
  let doy : Int := (153 * mp + 2) / 5 + (d : Int) - 1
  let doe : Int := yoe * 365 + yoe / 4 - yoe / 100 + doy
  era * 146097 + doe - 719468

/-- Civil (year, month, day-of-month) of a day number (inverse of
daysFromCivil). -/
def civilFromDays (z0 : Int) : Int × Nat × Nat :=
  let z := z0 + 719468
  let era := Int.fdiv z 146097
  let doe := z - era * 146097
  let yoe := (doe - doe / 1460 + doe / 36524 - doe / 146096) / 365
  let y := yoe + era * 400
  let doy := doe - (365 * yoe + yoe / 4 - yoe / 100)
  let mp := (5 * doy + 2) / 153
  let d := doy - (153 * mp + 2) / 5 + 1
  let m := if mp < 10 then mp + 3 else mp - 9
  (if m ≤ 2 then y + 1 else y, m.toNat, d.toNat)

/-- Day of month (JS Date.getDate) of a day number. -/
def dayOfMonth (z : Int) : Nat := (civilFromDays z).2.2

/-- Month number 1..12 of a day number. -/
def monthOf (z : Int) : Nat := (civilFromDays z).2.1

/-- WEEK_START_DAY from src/lib/dates: weeks start on Sunday. -/
def WEEK_START_DAY : Nat := 0

/-- Day of week, 0 = Sunday; day number 0 (1970-01-01) is a Thursday. -/
def dayOfWeek (z : Int) : Int := (z + 4) % 7

/-- date-fns startOfMonth: the first day of the month containing z. -/
def startOfMonth (z : Int) : Int := z - ((dayOfMonth z : Int) - 1)

/-- date-fns endOfMonth: the last day of the month containing z. -/
def endOfMonth (z : Int) : Int :=
  startOfMonth z + ((daysInMonth (civilFromDays z).1 (monthOf z) : Int) - 1)

/-- date-fns startOfWeek with weekStartsOn = 0: previous-or-same Sunday. -/
def startOfWeek (z : Int) : Int := z - dayOfWeek z

/-- date-fns endOfWeek with weekStartsOn = 0: next-or-same Saturday. -/
def endOfWeek (z : Int) : Int := z + (6 - dayOfWeek z)

/-- date-fns addDays (the offsetDays operation of the specification). -/
def addDays (z : Int) (n : Int) : Int := z + n

/-- date-fns differenceInDays, exact on civil dates. -/
def differenceInDays (b a : Int) : Int := b - a

/-- Integer range [a, a + n): the dates a, a+1, ..., a+n-1. -/
def intRange (a : Int) : Nat → List Int
  | 0 => []
  | n + 1 => a :: intRange (a + 1) n

/-- date-fns eachDayOfInterval: every day from a to b inclusive. -/
def eachDayOfInterval (a b : Int) : List Int :=
  intRange a (b + 1 - a).toNat

/-- DateRange from src/types, both endpoints inclusive.  The source field
named end is a Lean keyword and is embedded as stop. -/
structure DateRange where
  start : Int
  stop : Int
  deriving DecidableEq

/-- normalizeDateRange from src/lib/dates: ensure start ≤ end. -/
def normalizeDateRange (start stop : Int) : DateRange :=
  if start ≤ stop then { start := start, stop := stop }
  else { start := stop, stop := start }

/-- dayCountInclusive from src/lib/dates: differenceInDays(end, start) + 1. -/
def dayCountInclusive (start stop : Int) : Int :=
  differenceInDays stop start + 1

/-- Category from src/types: a fixed closed set of labels. -/
inductive Category where
  | toDo
  | inProgress
  | review
  | completed
  deriving DecidableEq

/-- Task from src/types.  The source field named end is embedded as stop. -/
structure Task where
  id : String
  name : String
  category : Category
  start : Int
  stop : Int
  deriving DecidableEq

/-- CalendarDay from src/lib/dates.  The isoDate field of the source is the
canonical string form of the date field and carries the same information
under the day-number embedding, so it is not repeated here. -/
structure CalendarDay where
  date : Int
  isCurrentMonth : Bool
  dayNumber : Nat
  isToday : Bool
  deriving DecidableEq

/-- WeekRow from src/lib/dates. -/
structure WeekRow where
  days : List CalendarDay
  startDate : Int
  endDate : Int
  deriving DecidableEq

/-- One CalendarDay of the grid, as built inside the forEach loop of
generateMonthGrid.  The isToday flag compares against the render-time
current date, passed explicitly here. -/
def calendarDayFor (date monthStart monthEnd today : Int) : CalendarDay :=
  { date := date
    isCurrentMonth := decide (monthStart ≤ date ∧ date ≤ monthEnd)
    dayNumber := dayOfMonth date
    isToday := decide (date = today) }

/-- Bucketing of consecutive days into weeks of 7, as the forEach loop of
generateMonthGrid does: a week is pushed after every 7th day, with
startDate the first and endDate the last of the 7; a trailing group of
fewer than 7 days is never pushed. -/
def chunk7 : List CalendarDay → List WeekRow
  | a :: b :: c :: d :: e :: f :: g :: rest =>
      { days := [a, b, c, d, e, f, g], startDate := a.date, endDate := g.date }
        :: chunk7 rest
  | _ => []

/-- generateMonthGrid from src/lib/dates.  The today argument is the
render-time current date consulted by date-fns isToday. -/
def generateMonthGrid (month : Int) (today : Int) : List WeekRow :=
  let monthStart := startOfMonth month
  let monthEnd := endOfMonth month
  let calendarStart := startOfWeek monthStart
  let calendarEnd := endOfWeek monthEnd
  let allDays := eachDayOfInterval calendarStart calendarEnd
  chunk7 (allDays.map (fun date => calendarDayFor date monthStart monthEnd today))

/-- Normal form of a week-aligned grid of k weeks starting at day a, with
every CalendarDay built by f: the shape generateMonthGrid produces (proved
below in generateMonthGrid_eq_gridWeeks). -/
def gridWeeks (f : Int → CalendarDay) (a : Int) : Nat → List WeekRow
  | 0 => []
  | k + 1 =>
      { days := (intRange a 7).map f, startDate := a, endDate := a + 6 }
        :: gridWeeks f (a + 7) k

/-- TaskSegment from src/lib/taskSegments.  The source fields startDate and
endDate are ISO strings of the clamped dates; under the embedding they are
the dates themselves. -/
structure TaskSegment where
  task : Task
  startDate : Int
  endDate : Int
  startColumn : Nat
  widthInColumns : Nat
  rowIndex : Nat
  deriving DecidableEq

/-- JS Array.findIndex over the days of a week, looking for an exact date
match; none embeds the -1 of the source (checked right after the call). -/
def findIndexDate (target : Int) : List CalendarDay → Option Nat
  | [] => none
  | day :: rest =>
      if day.date = target then some 0
      else (findIndexDate target rest).map (· + 1)

/-- Per-week body of the forEach loop of calculateTaskSegments: none when
the week is skipped (no overlap, or a clamped date not found among the
days of the week), some segment otherwise.  date-fns isAfter and isBefore
are the strict comparisons, and startOfDay is the identity on civil
dates. -/
def segmentForWeek (task : Task) (weekRow : WeekRow) : Option TaskSegment :=
  let taskStart := task.start
  let taskEnd := task.stop
  let weekStart := weekRow.startDate
  let weekEnd := weekRow.endDate
  if taskStart > weekEnd ∨ taskEnd < weekStart then
    none
  else
    let segmentStartDate := if taskStart < weekStart then weekStart else taskStart
    let segmentEndDate := if taskEnd > weekEnd then weekEnd else taskEnd
    match findIndexDate segmentStartDate weekRow.days,
          findIndexDate segmentEndDate weekRow.days with
    | some startColumn, some endColumn =>
        some { task := task
               startDate := segmentStartDate
               endDate := segmentEndDate
               startColumn := startColumn
               widthInColumns := endColumn - startColumn + 1
               rowIndex := 0 }
    | _, _ => none

/-- calculateTaskSegments from src/lib/taskSegments: one clamped segment per
overlapping week, in week order. -/
def calculateTaskSegments (task : Task) (weekRows : List WeekRow) : List TaskSegment :=
  weekRows.filterMap (segmentForWeek task)

/-- calculateAllTaskSegments from src/lib/taskSegments. -/
def calculateAllTaskSegments (tasks : List Task) (weekRows : List WeekRow) : List TaskSegment :=
  tasks.flatMap (fun task => calculateTaskSegments task weekRows)

/-- segmentsOverlap from src/lib/taskSegments: closed-interval column
overlap within one week row. -/
def segmentsOverlap (seg1 seg2 : TaskSegment) : Bool :=
  let seg1EndCol := seg1.startColumn + seg1.widthInColumns - 1
  let seg2EndCol := seg2.startColumn + seg2.widthInColumns - 1
  !(decide (seg1EndCol < seg2.startColumn) || decide (seg2EndCol < seg1.startColumn))

/-- While-loop of calculateRowIndices: index of the first row none of whose
already-placed segments the new segment column-overlaps; rows.length when
no existing row fits (a new row is created there). -/
def firstFitRow (segment : TaskSegment) : List (List TaskSegment) → Nat
  | [] => 0
  | row :: rest =>
      if row.any (fun existing => segmentsOverlap segment existing) then
        firstFitRow segment rest + 1
      else 0

/-- Push of calculateRowIndices: append the placed segment to the row at
the given index, creating the row when the index is one past the end. -/
def placeAt (seg : TaskSegment) : List (List TaskSegment) → Nat → List (List TaskSegment)
  | [], _ => [[seg]]
  | row :: rest, 0 => (row ++ [seg]) :: rest
  | row :: rest, i + 1 => row :: placeAt seg rest i

/-- Main loop of calculateRowIndices: place each segment, in sorted order,
into the first fitting row, recording the row index on the segment.  The
source mutates segment.rowIndex in place and returns the input array; the
embedding returns the placed segments, in placement order (the same
multiset of segment values). -/
def assignLoop (rows : List (List TaskSegment)) : List TaskSegment → List TaskSegment
  | [] => []
  | segment :: rest =>
      let rowIndex := firstFitRow segment rows
      let placed := { segment with rowIndex := rowIndex }
      placed :: assignLoop (placeAt placed rows rowIndex) rest

/-- Stable insertion into a list sorted by startColumn: the new segment
goes before the first strictly larger key, after equal keys already
present, matching the stable JS Array.sort. -/
def insertByStartColumn (s : TaskSegment) : List TaskSegment → List TaskSegment
  | [] => [s]
  | t :: rest =>
      if t.startColumn ≤ s.startColumn then t :: insertByStartColumn s rest
      else s :: t :: rest

/-- Stable sort by startColumn, embedding the JS
sort((a, b) => a.startColumn - b.startColumn) of calculateRowIndices. -/
def sortByStartColumn : List TaskSegment → List TaskSegment
  | [] => []
  | s :: rest => insertByStartColumn s (sortByStartColumn rest)

/-- calculateRowIndices from src/lib/taskSegments: sort by startColumn,
then greedy first-fit placement into stacking rows. -/
def calculateRowIndices (segments : List TaskSegment) : List TaskSegment :=
  assignLoop [] (sortByStartColumn segments)

/-- SelectionState from src/types; the source field named end is embedded
as stop. -/
structure SelectionState where
  start : Option Int
  stop : Option Int
  isSelecting : Bool
  deriving DecidableEq

/-- ModalState from src/types; the source field named open is a Lean
keyword and is embedded as isOpen. -/
structure ModalState where
  isOpen : Bool
  draftRange : Option DateRange
  editingTaskId : Option String
  deriving DecidableEq

/-- FilterState from src/types; timeRangeWeeks ranges over 0..3 with 0
meaning no time filter. -/
structure FilterState where
  search : String
  categories : List Category
  timeRangeWeeks : Nat
  deriving DecidableEq

/-- AppState from src/types. -/
structure AppState where
  tasks : List Task
  selection : SelectionState
  modal : ModalState
  filters : FilterState
  currentMonth : Int
  deriving DecidableEq

/-- AppAction from src/App.  The fresh id of TASK_CREATE (Date.now and
Math.random in the source) is passed explicitly. -/
inductive AppAction where
  | selectionStart (isoDate : Int)
  | selectionUpdate (isoDate : Int)
  | selectionEnd
  | modalOpen (draftRange : Option DateRange)
  | modalClose
  | taskCreate (freshId : String) (name : String) (category : Category)
      (start : Int) (stop : Int)
  | taskMove (taskId : String) (newStartDate : Int)
  | taskResize (taskId : String) (newStart : Int) (newStop : Int)
  | filtersChange (filters : FilterState)
  | monthChange (month : Int)
  deriving DecidableEq

/-- appReducer from src/App.  The MODAL_OPEN action has no case in the
source switch and falls through to the default branch, returning the state
unchanged; the guard of SELECTION_END treats a missing anchor or cursor
(undefined in the source) as absent. -/
def appReducer (state : AppState) (action : AppAction) : AppState :=
  match action with
  | .selectionStart isoDate =>
      { state with
        selection := { start := some isoDate, stop := some isoDate, isSelecting := true } }
  | .selectionUpdate isoDate =>
      if state.selection.isSelecting then
        { state with selection := { state.selection with stop := some isoDate } }
      else state
  | .selectionEnd =>
      match state.selection.isSelecting, state.selection.start, state.selection.stop with
      | true, some s, some e =>
          { state with
            selection := { start := none, stop := none, isSelecting := false }
            modal := { isOpen := true
                       draftRange := some (normalizeDateRange s e)
                       editingTaskId := none } }
      | _, _, _ =>
          { state with selection := { start := none, stop := none, isSelecting := false } }
  | .modalOpen _ => state
  | .modalClose =>
      { state with
        modal := { isOpen := false, draftRange := none, editingTaskId := none }
        selection := { start := none, stop := none, isSelecting := false } }
  | .taskCreate freshId name category start stop =>
      { state with
        tasks := state.tasks ++
          [{ id := freshId, name := name, category := category, start := start, stop := stop }]
        modal := { isOpen := false, draftRange := none, editingTaskId := none }
        selection := { start := none, stop := none, isSelecting := false } }
  | .taskMove taskId newStartDate =>
      match state.tasks.find? (fun t => t.id == taskId) with
      | none => state
      | some task =>
          let duration := differenceInDays task.stop task.start
          let newStart := newStartDate
          let newEnd := addDays newStart duration
          { state with
            tasks := state.tasks.map (fun t =>
              if t.id == taskId then { t with start := newStart, stop := newEnd } else t) }
  | .taskResize taskId newStart newStop =>
      let normalized := normalizeDateRange newStart newStop
      { state with
        tasks := state.tasks.map (fun t =>
          if t.id == taskId then { t with start := normalized.start, stop := normalized.stop }
          else t) }
  | .filtersChange filters => { state with filters := filters }
  | .monthChange month => { state with currentMonth := month }

/-- ResizeEdge: the left (start handle) and right (end handle) cases of the
isResizing state in TaskBar. -/
inductive ResizeEdge where
  | left
  | right
  deriving DecidableEq

/-- Decision core of handleResizeMove in src/components/TaskBar: given the
task being resized, the active edge, and the target date resolved from the
pointer position (findDateAtX, a DOM lookup abstracted into a parameter
here), the (newStart, newEnd) pair passed to onResize and dispatched as a
TASK_RESIZE action. -/
def handleResizeMove (task : Task) (edge : ResizeEdge) (targetDate : Int) :
    Int × Int :=
  match edge with
  | .left =>
      if targetDate > task.stop then (task.stop, task.stop)
      else (targetDate, task.stop)
  | .right =>
      if targetDate < task.start then (task.start, task.start)
      else (task.start, targetDate)

/-- Week-overlap test of calculateTaskSegments: the negation of its skip
condition for a week row. -/
def weekOverlaps (task : Task) (w : WeekRow) : Bool :=
  decide (task.start ≤ w.endDate) && decide (w.startDate ≤ task.stop)

/-- Segment that calculateTaskSegments produces for an overlapping week of
an aligned grid, written with the clamping of the specification:
segStart = max(task.start, week.start), segEnd = min(task.end, week.end),
columns the day offsets of the clamped dates inside the week. -/
def clampedSegment (task : Task) (w : WeekRow) : TaskSegment :=
  { task := task
    startDate := max task.start w.startDate
    endDate := min task.stop w.endDate
    startColumn := (max task.start w.startDate - w.startDate).toNat
    widthInColumns :=
      (min task.stop w.endDate - w.startDate).toNat
        - (max task.start w.startDate - w.startDate).toNat + 1
    rowIndex := 0 }

/-- Concrete fixture: the spec example task spanning 2024-03-10 to
2024-03-15. -/
def sampleTask : Task :=
  { id := "t1"
    name := "Design"
    category := .toDo
    start := daysFromCivil 2024 3 10
    stop := daysFromCivil 2024 3 15 }

/-- Concrete fixture: an idle app state holding only sampleTask. -/
def sampleState : AppState :=
  { tasks := [sampleTask]
    selection := { start := none, stop := none, isSelecting := false }
    modal := { isOpen := false, draftRange := none, editingTaskId := none }
    filters := { search := "", categories := [], timeRangeWeeks := 0 }
    currentMonth := daysFromCivil 2024 3 1 }

/-- Concrete fixture: sampleState in the middle of a backward selection
drag, anchored at 2024-03-12 with the cursor on 2024-03-08. -/
def selectingState : AppState :=
  { sampleState with
    selection := { start := some (daysFromCivil 2024 3 12)
                   stop := some (daysFromCivil 2024 3 8)
                   isSelecting := true } }

/-- Concrete fixture: the spec example task 2024-03-05..2024-03-20, which
spans three weeks of the March 2024 grid. -/
def marchTask : Task :=
  { id := "t2"
    name := "Launch"
    category := .inProgress
    start := daysFromCivil 2024 3 5
    stop := daysFromCivil 2024 3 20 }

/-- Concrete fixture: a task confined to the week 2024-03-10..2024-03-16. -/
def midTask : Task :=
  { id := "t3"
    name := "Review"
    category := .review
    start := daysFromCivil 2024 3 12
    stop := daysFromCivil 2024 3 14 }

/-- Concrete fixture: the third week row (index 2) of the March 2024 grid,
covering 2024-03-10..2024-03-16. -/
def marchWeek : WeekRow :=
  (generateMonthGrid (daysFromCivil 2024 3 1) 0).getD 2
    { days := [], startDate := 0, endDate := 0 }

theorem intRange_succ (a : Int) (n : Nat) :
    intRange a (n + 1) = a :: intRange (a + 1) n := rfl

theorem intRange_length (a : Int) : ∀ n : Nat, (intRange a n).length = n := by
  intro n
  induction n generalizing a with
  | zero => rfl
  | succ m ih => simp [intRange, ih]

theorem mem_intRange {x a : Int} : ∀ {n : Nat}, x ∈ intRange a n ↔ a ≤ x ∧ x < a + n := by
  intro n
  induction n generalizing a with
  | zero => simp [intRange]
  | succ m ih => simp [intRange, ih]; omega

theorem intRange_append (a : Int) (m n : Nat) :
    intRange a (m + n) = intRange a m ++ intRange (a + m) n := by
  induction m generalizing a with
  | zero => simp [intRange]
  | succ p ih =>
      rw [show p + 1 + n = (p + n) + 1 from by omega, intRange_succ, ih, intRange_succ]
      rw [show a + 1 + (p : Int) = a + ((p : Nat) + 1 : Nat) from by push_cast; omega]
      simp

theorem intRange_seven (a : Int) :
    intRange a 7 = [a, a + 1, a + 2, a + 3, a + 4, a + 5, a + 6] := by
  show intRange a (6 + 1) = _
  rw [intRange]
  show _ :: intRange (a + 1) (5 + 1) = _
  rw [intRange]
  norm_num [intRange]
  omega

theorem intRange_chain (a : Int) :
    ∀ n : Nat, List.Chain' (fun x y => y = x + 1) (intRange a n) := by
  intro n
  induction n generalizing a with
  | zero => simp [intRange]
  | succ m ih =>
      rw [intRange_succ]
      refine List.chain'_cons'.mpr ⟨?_, ih _⟩
      intro b hb
      cases m with
      | zero => simp [intRange] at hb
      | succ p => rw [intRange_succ] at hb; simp at hb; omega

theorem chunk7_cons (a b c d e f g : CalendarDay) (rest : List CalendarDay) :
    chunk7 (a :: b :: c :: d :: e :: f :: g :: rest) =
      { days := [a, b, c, d, e, f, g], startDate := a.date, endDate := g.date }
        :: chunk7 rest := rfl

theorem chunk7_map_intRange (f : Int → CalendarDay) (hf : ∀ d, (f d).date = d) :
    ∀ (k : Nat) (a : Int), chunk7 ((intRange a (7 * k)).map f) = gridWeeks f a k := by
  intro k
  induction k with
  | zero => intro a; rfl
  | succ m ih =>
      intro a
      rw [show 7 * (m + 1) = 7 + 7 * m from by ring, intRange_append, List.map_append,
        intRange_seven]
      simp only [List.map_cons, List.map_nil, List.cons_append, List.nil_append]
      rw [chunk7_cons, ih]
      rw [gridWeeks, intRange_seven]
      simp [hf]

theorem daysInMonth_pos (y : Int) (m : Nat) : 1 ≤ daysInMonth y m := by
  unfold daysInMonth
  split
  · split <;> omega
  all_goals omega

/-- The grid that generateMonthGrid builds is a whole number of aligned
7-day weeks, starting at the Sunday on or before the first of the month. -/
theorem generateMonthGrid_eq_gridWeeks (month today : Int) :
    ∃ k : Nat, 1 ≤ k ∧
      endOfWeek (endOfMonth month) + 1 - startOfWeek (startOfMonth month) = 7 * (k : Int) ∧
      generateMonthGrid month today =
        gridWeeks
          (fun d => calendarDayFor d (startOfMonth month) (endOfMonth month) today)
          (startOfWeek (startOfMonth month)) k := by
  have hD : (1 : Int) ≤ (daysInMonth (civilFromDays month).1 (monthOf month) : Int) := by
    exact_mod_cast daysInMonth_pos (civilFromDays month).1 (monthOf month)
  have hme : endOfMonth month =
      startOfMonth month + ((daysInMonth (civilFromDays month).1 (monthOf month) : Int) - 1) :=
    rfl
  have h0 : (endOfWeek (endOfMonth month) + 1 - startOfWeek (startOfMonth month)) % 7 = 0 := by
    rw [hme]
    unfold endOfWeek startOfWeek dayOfWeek
    omega
  have h7 : 7 ≤ endOfWeek (endOfMonth month) + 1 - startOfWeek (startOfMonth month) := by
    rw [hme]
    unfold endOfWeek startOfWeek dayOfWeek
    omega
  refine ⟨((endOfWeek (endOfMonth month) + 1 - startOfWeek (startOfMonth month)) / 7).toNat,
    by omega, by omega, ?_⟩
  simp only [generateMonthGrid, eachDayOfInterval]
  rw [show (endOfWeek (endOfMonth month) + 1 - startOfWeek (startOfMonth month)).toNat =
      7 * ((endOfWeek (endOfMonth month) + 1 - startOfWeek (startOfMonth month)) / 7).toNat
    from by omega]
  exact chunk7_map_intRange _ (fun d => rfl) _ _

theorem gridWeeks_days_length (f : Int → CalendarDay) :
    ∀ (k : Nat) (a : Int), ∀ w ∈ gridWeeks f a k, w.days.length = 7 := by
  intro k
  induction k with
  | zero => intro a w hw; simp [gridWeeks] at hw
  | succ m ih =>
      intro a w hw
      rw [gridWeeks] at hw
      rcases List.mem_cons.mp hw with h | h
      · subst h; simp [intRange_length]
      · exact ih _ w h

theorem gridWeeks_join (f : Int → CalendarDay) :
    ∀ (k : Nat) (a : Int),
      ((gridWeeks f a k).map WeekRow.days).flatten = (intRange a (7 * k)).map f := by
  intro k
  induction k with
  | zero => intro a; simp [gridWeeks, show 7 * 0 = 0 from rfl, intRange]
  | succ m ih =>
      intro a
      rw [gridWeeks, show 7 * (m + 1) = 7 + 7 * m from by ring, intRange_append,
        List.map_append]
      simp only [List.map_cons, List.flatten_cons, ih]
      norm_num

theorem gridWeeks_mem_day (f : Int → CalendarDay) :
    ∀ (k : Nat) (a : Int), ∀ w ∈ gridWeeks f a k, ∀ d ∈ w.days, ∃ x, d = f x := by
  intro k
  induction k with
  | zero => intro a w hw; simp [gridWeeks] at hw
  | succ m ih =>
      intro a w hw d hd
      rw [gridWeeks] at hw
      rcases List.mem_cons.mp hw with h | h
      · subst h
        simp only [List.mem_map] at hd
        obtain ⟨x, _, hx⟩ := hd
        exact ⟨x, hx.symm⟩
      · exact ih _ w h d hd

/-- C2: for every month (and render-time current date), generateMonthGrid
returns week rows whose concatenated day count is a multiple of 7, every
week row has exactly 7 days, consecutive days across the whole grid differ
by exactly one calendar day, and the isCurrentMonth flag of a day is true
exactly when its date lies between the first and last date of the month,
inclusive. -/
theorem C2_generateMonthGrid_shape (month today : Int) :
    ((generateMonthGrid month today).map WeekRow.days).flatten.length % 7 = 0 ∧
    (∀ w ∈ generateMonthGrid month today, w.days.length = 7) ∧
    List.Chain' (fun a b => b.date = a.date + 1)
      ((generateMonthGrid month today).map WeekRow.days).flatten ∧
    (∀ w ∈ generateMonthGrid month today, ∀ d ∈ w.days,
      d.isCurrentMonth = true ↔
        startOfMonth month ≤ d.date ∧ d.date ≤ endOfMonth month) := by
  obtain ⟨k, hk1, hspan, hgrid⟩ := generateMonthGrid_eq_gridWeeks month today
  rw [hgrid]
  refine ⟨?_, ?_, ?_, ?_⟩
  · rw [gridWeeks_join, List.length_map, intRange_length]
    omega
  · intro w hw
    exact gridWeeks_days_length _ _ _ w hw
  · rw [gridWeeks_join, List.chain'_map]
    refine (intRange_chain _ _).imp ?_
    intro x y h
    simp [calendarDayFor, h]
  · intro w hw d hd
    obtain ⟨x, rfl⟩ := gridWeeks_mem_day _ _ _ w hw d hd
    simp [calendarDayFor]

/-- C8: normalizeDateRange is symmetric in its two arguments, equals the
min/max normal form, and always satisfies start ≤ end; it is a total
function of its two civil-date arguments. -/
theorem C8_normalizeDateRange_props (a b : Int) :
    normalizeDateRange a b = normalizeDateRange b a ∧
    normalizeDateRange a b = { start := min a b, stop := max a b } ∧
    (normalizeDateRange a b).start ≤ (normalizeDateRange a b).stop := by
  unfold normalizeDateRange
  rcases lt_trichotomy a b with h | h | h
  · rw [if_pos (le_of_lt h), if_neg (not_le.mpr h)]
    refine ⟨rfl, ?_, le_of_lt h⟩
    simp [min_eq_left (le_of_lt h), max_eq_right (le_of_lt h)]
  · subst h
    simp
  · rw [if_neg (not_le.mpr h), if_pos (le_of_lt h)]
    refine ⟨rfl, ?_, le_of_lt h⟩
    simp [min_eq_right (le_of_lt h), max_eq_left (le_of_lt h)]
theorem normalizeDateRange_le (a b : Int) :
    (normalizeDateRange a b).start ≤ (normalizeDateRange a b).stop := by
  unfold normalizeDateRange
  split <;> simp <;> omega

theorem find?_map_eq {α β : Type} (f : α → β) (p : β → Bool) :
    ∀ l : List α, (l.map f).find? p = (l.find? (fun x => p (f x))).map f := by
  intro l
  induction l with
  | nil => rfl
  | cons x xs ih =>
      cases h : p (f x)
      · simp [List.find?_cons_of_neg, h, ih]
      · simp [List.find?_cons_of_pos, h]

theorem forall₂_map_self {α : Type} (g : α → α) (P : α → α → Prop) :
    ∀ l : List α, (∀ x ∈ l, P x (g x)) → List.Forall₂ P l (l.map g) := by
  intro l h
  induction l with
  | nil => simp
  | cons x xs ih =>
      simp only [List.map_cons, List.forall₂_cons]
      exact ⟨h x (by simp), ih (fun y hy => h y (by simp [hy]))⟩

/-- C4: when the task list contains the targeted task and its range is
well-formed, TASK_MOVE rebases the range at the requested date, the new
end is offsetDays(date, inclusiveDayCount - 1), and the inclusive day
count is preserved. -/
theorem C4_taskMove_preserves_duration (state : AppState) (taskId : String) (d : Int)
    (task : Task) (hfind : state.tasks.find? (fun t => t.id == taskId) = some task)
    (hle : task.start ≤ task.stop) :
    ∃ moved : Task,
      (appReducer state (.taskMove taskId d)).tasks.find? (fun t => t.id == taskId)
        = some moved ∧
      moved.start = d ∧
      moved.stop = addDays d (dayCountInclusive task.start task.stop - 1) ∧
      dayCountInclusive moved.start moved.stop = dayCountInclusive task.start task.stop := by
  have hp := List.find?_some hfind
  simp only [appReducer, hfind]
  rw [find?_map_eq]
  have hfun : (fun t : Task =>
      (if t.id == taskId
        then { t with start := d, stop := addDays d (differenceInDays task.stop task.start) }
        else t).id == taskId) = (fun t : Task => t.id == taskId) := by
    funext t
    cases h : t.id == taskId <;> simp [h]
  rw [hfun, hfind]
  refine ⟨_, rfl, ?_⟩
  simp only [hp, if_true]
  refine ⟨trivial, ?_, ?_⟩
  · simp [addDays, dayCountInclusive, differenceInDays]
  · simp [dayCountInclusive, differenceInDays, addDays]

/-- C5: a resize on the start edge whose target lies past the end clamps
to the one-day range at the end (symmetrically for the end edge against
the start), and the range a TASK_RESIZE applies to the task always
satisfies start ≤ end. -/
theorem C5_resize_clamps (task : Task) (edge : ResizeEdge) (target : Int)
    (state : AppState) :
    (edge = .left → target > task.stop →
      handleResizeMove task edge target = (task.stop, task.stop)) ∧
    (edge = .right → target < task.start →
      handleResizeMove task edge target = (task.start, task.start)) ∧
    (∀ t ∈ (appReducer state (.taskResize task.id
        (handleResizeMove task edge target).1
        (handleResizeMove task edge target).2)).tasks,
      t.id = task.id → t.start ≤ t.stop) := by
  refine ⟨?_, ?_, ?_⟩
  · rintro rfl h
    simp [handleResizeMove, h]
  · rintro rfl h
    simp [handleResizeMove, h]
  · intro t ht hid
    simp only [appReducer, List.mem_map] at ht
    obtain ⟨x, _, rfl⟩ := ht
    by_cases h : (x.id == task.id) = true
    · simp only [h, if_true]
      exact normalizeDateRange_le _ _
    · simp only [h, if_false] at hid ⊢
      exact absurd hid (by simpa using h)

/-- C6: with a selection in progress whose anchor and cursor are set,
SELECTION_END clears the selection and opens the modal on the normalized
range; in particular the backward drag from 2024-03-12 to 2024-03-08
normalizes to the range from 2024-03-08 to 2024-03-12. -/
theorem C6_selectionEnd_commits (state : AppState) (a c : Int)
    (hsel : state.selection.isSelecting = true)
    (hs : state.selection.start = some a)
    (he : state.selection.stop = some c) :
    (appReducer state .selectionEnd).selection
      = { start := none, stop := none, isSelecting := false } ∧
    (appReducer state .selectionEnd).modal
      = { isOpen := true, draftRange := some (normalizeDateRange a c)
          editingTaskId := none } ∧
    normalizeDateRange (daysFromCivil 2024 3 12) (daysFromCivil 2024 3 8)
      = { start := daysFromCivil 2024 3 8, stop := daysFromCivil 2024 3 12 } := by
  simp only [appReducer, hsel, hs, he]
  exact ⟨trivial, trivial, by decide⟩

/-- C9: TASK_MOVE and TASK_RESIZE targeting an existing task change only
the start and end of tasks carrying that id: identity, name and category
of every task, every other task, and the selection, modal, filters and
current month of the state are unchanged. -/
theorem C9_move_resize_frame (state : AppState) (taskId : String) (d ns ne : Int)
    (task : Task) (hfind : state.tasks.find? (fun t => t.id == taskId) = some task) :
    ((appReducer state (.taskMove taskId d)).selection = state.selection ∧
     (appReducer state (.taskMove taskId d)).modal = state.modal ∧
     (appReducer state (.taskMove taskId d)).filters = state.filters ∧
     (appReducer state (.taskMove taskId d)).currentMonth = state.currentMonth ∧
     List.Forall₂
       (fun t u => u.id = t.id ∧ u.name = t.name ∧ u.category = t.category ∧
         (t.id ≠ taskId → u = t))
       state.tasks (appReducer state (.taskMove taskId d)).tasks) ∧
    ((appReducer state (.taskResize taskId ns ne)).selection = state.selection ∧
     (appReducer state (.taskResize taskId ns ne)).modal = state.modal ∧
     (appReducer state (.taskResize taskId ns ne)).filters = state.filters ∧
     (appReducer state (.taskResize taskId ns ne)).currentMonth = state.currentMonth ∧
     List.Forall₂
       (fun t u => u.id = t.id ∧ u.name = t.name ∧ u.category = t.category ∧
         (t.id ≠ taskId → u = t))
       state.tasks (appReducer state (.taskResize taskId ns ne)).tasks) := by
  constructor
  · simp only [appReducer, hfind]
    refine ⟨trivial, trivial, trivial, trivial, ?_⟩
    refine forall₂_map_self _ _ _ ?_
    intro x _
    by_cases h : (x.id == task.id)
    · by_cases h2 : (x.id == taskId) = true
      · simp only [h2, if_true]
        refine ⟨trivial, trivial, trivial, ?_⟩
        intro hne
        exact absurd (by simpa using h2) hne
      · simp [h2]
    · by_cases h2 : (x.id == taskId) = true
      · simp only [h2, if_true]
        refine ⟨trivial, trivial, trivial, ?_⟩
        intro hne
        exact absurd (by simpa using h2) hne
      · simp [h2]
  · simp only [appReducer]
    refine ⟨trivial, trivial, trivial, trivial, ?_⟩
    refine forall₂_map_self _ _ _ ?_
    intro x _
    by_cases h2 : (x.id == taskId) = true
    · simp only [h2, if_true]
      refine ⟨trivial, trivial, trivial, ?_⟩
      intro hne
      exact absurd (by simpa using h2) hne
    · simp [h2]

/-- C10: a TASK_MOVE whose id matches no task, and a SELECTION_UPDATE
received while no selection is in progress, both leave the state
unchanged. -/
theorem C10_noop_actions :
    (∀ (state : AppState) (taskId : String) (d : Int),
      state.tasks.find? (fun t => t.id == taskId) = none →
      appReducer state (.taskMove taskId d) = state) ∧
    (∀ (state : AppState) (iso : Int),
      state.selection.isSelecting = false →
      appReducer state (.selectionUpdate iso) = state) := by
  constructor
  · intro state taskId d h
    simp only [appReducer, h]
  · intro state iso h
    simp only [appReducer, h]
    simp

/-- Witness for C4: moving the sample task (6 inclusive days) to
2024-04-01 keeps its 6-day duration. -/
theorem C4_taskMove_witness :
    ∃ moved : Task,
      (appReducer sampleState (.taskMove "t1" (daysFromCivil 2024 4 1))).tasks.find?
        (fun t => t.id == "t1") = some moved ∧
      moved.start = daysFromCivil 2024 4 1 ∧
      moved.stop = addDays (daysFromCivil 2024 4 1)
        (dayCountInclusive sampleTask.start sampleTask.stop - 1) ∧
      dayCountInclusive moved.start moved.stop
        = dayCountInclusive sampleTask.start sampleTask.stop :=
  C4_taskMove_preserves_duration sampleState "t1" (daysFromCivil 2024 4 1) sampleTask
    (by decide) (by decide)

/-- Witness for C5: the spec example, resizing the start handle of the
task spanning 2024-03-10..2024-03-15 to target 2024-03-20 emits the
one-day range at the end. -/
theorem C5_resize_witness :
    handleResizeMove sampleTask .left (daysFromCivil 2024 3 20)
      = (sampleTask.stop, sampleTask.stop) :=
  (C5_resize_clamps sampleTask .left (daysFromCivil 2024 3 20) sampleState).1 rfl (by decide)

/-- Witness for C6: committing the backward drag of selectingState opens
the modal on the normalized range 2024-03-08..2024-03-12. -/
theorem C6_selectionEnd_witness :
    (appReducer selectingState .selectionEnd).selection
      = { start := none, stop := none, isSelecting := false } ∧
    (appReducer selectingState .selectionEnd).modal
      = { isOpen := true
          draftRange := some (normalizeDateRange (daysFromCivil 2024 3 12)
            (daysFromCivil 2024 3 8))
          editingTaskId := none } ∧
    normalizeDateRange (daysFromCivil 2024 3 12) (daysFromCivil 2024 3 8)
      = { start := daysFromCivil 2024 3 8, stop := daysFromCivil 2024 3 12 } :=
  C6_selectionEnd_commits selectingState (daysFromCivil 2024 3 12) (daysFromCivil 2024 3 8)
    rfl rfl rfl

/-- Witness for C9: moving the sample task leaves the selection of the
state untouched. -/
theorem C9_frame_witness :
    (appReducer sampleState (.taskMove "t1" 5)).selection = sampleState.selection :=
  ((C9_move_resize_frame sampleState "t1" 5 3 9 sampleTask (by decide)).1).1

/-- Witness for C10: a TASK_MOVE with an unknown id and a SELECTION_UPDATE
outside a selection both leave the sample state unchanged. -/
theorem C10_noop_witness :
    appReducer sampleState (.taskMove "zzz" 5) = sampleState ∧
    appReducer sampleState (.selectionUpdate 3) = sampleState :=
  ⟨C10_noop_actions.1 sampleState "zzz" 5 (by decide),
   C10_noop_actions.2 sampleState 3 rfl⟩

theorem findIndexDate_intRange (t : Int) :
    ∀ (n : Nat) (s : Int) (days : List CalendarDay),
      days.map CalendarDay.date = intRange s n → s ≤ t → t < s + n →
      findIndexDate t days = some (t - s).toNat := by
  intro n
  induction n with
  | zero =>
      intro s days h h1 h2
      exfalso
      omega
  | succ m ih =>
      intro s days h h1 h2
      cases days with
      | nil => rw [intRange_succ] at h; simp at h
      | cons day rest =>
          rw [intRange_succ] at h
          simp only [List.map_cons, List.cons.injEq] at h
          obtain ⟨hd, hrest⟩ := h
          by_cases hts : t = s
          · subst hts
            rw [findIndexDate, if_pos hd]
            congr 1
            omega
          · rw [findIndexDate, if_neg (by rw [hd]; exact fun hh => hts hh.symm)]
            rw [ih (s + 1) rest hrest (by omega) (by push_cast at h2 ⊢; omega)]
            show some ((t - (s + 1)).toNat + 1) = some (t - s).toNat
            congr 1
            omega

theorem segmentForWeek_eq (task : Task) (w : WeekRow)
    (hw : w.endDate = w.startDate + 6)
    (hdays : w.days.map CalendarDay.date = intRange w.startDate 7) :
    segmentForWeek task w =
      if weekOverlaps task w then some (clampedSegment task w) else none := by
  by_cases hov : task.start > w.endDate ∨ task.stop < w.startDate
  · have hfalse : weekOverlaps task w = false := by
      unfold weekOverlaps
      rcases hov with h | h <;> simp <;> omega
    rw [hfalse, segmentForWeek, if_pos hov]
    rfl
  · push_neg at hov
    obtain ⟨ho1, ho2⟩ := hov
    have htrue : weekOverlaps task w = true := by
      unfold weekOverlaps
      simp
      omega
    have hseg1 : (if task.start < w.startDate then w.startDate else task.start)
        = max task.start w.startDate := by
      rcases lt_or_ge task.start w.startDate with h | h
      · rw [if_pos h, max_eq_right (le_of_lt h)]
      · rw [if_neg (not_lt.mpr h), max_eq_left h]
    have hseg2 : (if task.stop > w.endDate then w.endDate else task.stop)
        = min task.stop w.endDate := by
      rcases lt_or_ge w.endDate task.stop with h | h
      · rw [if_pos h, min_eq_right (le_of_lt h)]
      · rw [if_neg (not_lt.mpr h), min_eq_left h]
    have hb1 : w.startDate ≤ max task.start w.startDate := le_max_right _ _
    have hb2 : max task.start w.startDate < w.startDate + 7 := by
      rw [hw] at ho1
      rcases max_cases task.start w.startDate with ⟨he, _⟩ | ⟨he, _⟩ <;> omega
    have hb3 : w.startDate ≤ min task.stop w.endDate := by
      rcases min_cases task.stop w.endDate with ⟨he, _⟩ | ⟨he, _⟩ <;> omega
    have hb4 : min task.stop w.endDate < w.startDate + 7 := by
      rcases min_cases task.stop w.endDate with ⟨he, _⟩ | ⟨he, _⟩ <;> omega
    have hfind1 := findIndexDate_intRange (max task.start w.startDate) 7 w.startDate w.days
      hdays hb1 (by push_cast; omega)
    have hfind2 := findIndexDate_intRange (min task.stop w.endDate) 7 w.startDate w.days
      hdays hb3 (by push_cast; omega)
    rw [htrue, segmentForWeek, if_neg (by push_neg; exact ⟨ho1, ho2⟩)]
    simp only [hseg1, hseg2, hfind1, hfind2, if_true]
    rfl

theorem filterMap_eq_filter_map {α β : Type} (f : α → Option β) (p : α → Bool) (g : α → β) :
    ∀ l : List α, (∀ x ∈ l, f x = if p x then some (g x) else none) →
      l.filterMap f = (l.filter p).map g := by
  intro l h
  induction l with
  | nil => rfl
  | cons x xs ih =>
      rw [List.filterMap_cons, List.filter_cons, h x (by simp)]
      cases hp : p x
      · simp only [hp, if_false, Bool.false_eq_true]
        exact ih (fun y hy => h y (by simp [hy]))
      · simp only [hp, if_true, List.map_cons]
        rw [ih (fun y hy => h y (by simp [hy]))]

theorem gridWeeks_mem_shape (f : Int → CalendarDay) (hf : ∀ d, (f d).date = d) :
    ∀ (k : Nat) (a : Int), ∀ w ∈ gridWeeks f a k,
      w.endDate = w.startDate + 6 ∧
      w.days.map CalendarDay.date = intRange w.startDate 7 ∧
      a ≤ w.startDate := by
  intro k
  induction k with
  | zero => intro a w hw; simp [gridWeeks] at hw
  | succ m ih =>
      intro a w hw
      rw [gridWeeks] at hw
      rcases List.mem_cons.mp hw with h | h
      · subst h
        refine ⟨rfl, ?_, le_refl _⟩
        show (List.map f (intRange a 7)).map CalendarDay.date = intRange a 7
        have hcongr : List.map (CalendarDay.date ∘ f) (intRange a 7)
            = List.map id (intRange a 7) :=
          List.map_congr_left (fun x _ => hf x)
        rw [List.map_map, hcongr, List.map_id]
      · obtain ⟨h1, h2, h3⟩ := ih _ w h
        exact ⟨h1, h2, by omega⟩

theorem calculateTaskSegments_gridWeeks (f : Int → CalendarDay)
    (hf : ∀ d, (f d).date = d) (task : Task) (k : Nat) (a : Int) :
    calculateTaskSegments task (gridWeeks f a k)
      = ((gridWeeks f a k).filter (weekOverlaps task)).map (clampedSegment task) := by
  apply filterMap_eq_filter_map
  intro w hw
  obtain ⟨h6, hdays, _⟩ := gridWeeks_mem_shape f hf k a w hw
  exact segmentForWeek_eq task w h6 hdays

theorem gridWeeks_filter_none (task : Task) (f : Int → CalendarDay) :
    ∀ (k : Nat) (a : Int), task.stop < a →
      (gridWeeks f a k).filter (weekOverlaps task) = [] := by
  intro k
  induction k with
  | zero => intro a h; rfl
  | succ m ih =>
      intro a h
      rw [gridWeeks, List.filter_cons]
      have : weekOverlaps task { days := (intRange a 7).map f, startDate := a, endDate := a + 6 }
          = false := by
        unfold weekOverlaps
        simp
        omega
      rw [this]
      simp only [Bool.false_eq_true, if_false]
      exact ih (a + 7) (by omega)

theorem eachDay_append (x m y : Int) (h1 : x ≤ m + 1) (h2 : m ≤ y) :
    eachDayOfInterval x m ++ eachDayOfInterval (m + 1) y = eachDayOfInterval x y := by
  unfold eachDayOfInterval
  rw [show (y + 1 - x).toNat = (m + 1 - x).toNat + (y - m).toNat from by omega,
    intRange_append,
    show x + ((m + 1 - x).toNat : Int) = m + 1 from by omega,
    show (y - m).toNat = (y + 1 - (m + 1)).toNat from by omega]

theorem flatten_spans (task : Task) (h1 : task.start ≤ task.stop) (f : Int → CalendarDay) :
    ∀ (k : Nat) (a : Int), a ≤ task.stop → task.stop ≤ a + 7 * k - 1 →
      (((gridWeeks f a k).filter (weekOverlaps task)).map
        (fun w => eachDayOfInterval (max task.start w.startDate) (min task.stop w.endDate))).flatten
      = eachDayOfInterval (max task.start a) task.stop := by
  intro k
  induction k with
  | zero =>
      intro a ha hb
      exfalso
      push_cast at hb
      omega
  | succ m ih =>
      intro a ha hb
      rw [gridWeeks, List.filter_cons]
      by_cases hs : task.start ≤ a + 6
      · have : weekOverlaps task
            { days := (intRange a 7).map f, startDate := a, endDate := a + 6 } = true := by
          unfold weekOverlaps
          simp
          omega
        rw [this]
        simp only [if_true, List.map_cons, List.flatten_cons]
        by_cases hstop : task.stop ≤ a + 6
        · rw [gridWeeks_filter_none task f m (a + 7) (by omega)]
          simp only [List.map_nil, List.flatten_nil, List.append_nil]
          rw [min_eq_left hstop]
        · push_neg at hstop
          rw [ih (a + 7) (by omega) (by push_cast at hb ⊢; omega),
            max_eq_right (by omega : task.start ≤ a + 7),
            min_eq_right (by omega : a + 6 ≤ task.stop)]
          rw [show (a + 7 : Int) = (a + 6) + 1 from by ring]
          exact eachDay_append (max task.start a) (a + 6) task.stop
            (max_le (by omega) (by omega)) (by omega)
      · have : weekOverlaps task
            { days := (intRange a 7).map f, startDate := a, endDate := a + 6 } = false := by
          unfold weekOverlaps
          simp
          omega
        rw [this]
        simp only [Bool.false_eq_true, if_false]
        rw [ih (a + 7) (by omega) (by push_cast at hb ⊢; omega),
          max_eq_left (by omega : a + 7 ≤ task.start),
          max_eq_left (by omega : a ≤ task.start)]

/-- C1: for a well-formed task range lying within the span of the month
grid, calculateTaskSegments yields exactly the overlapping weeks in week
order, each segment clamped to its week by segStart = max(task.start,
week.start) and segEnd = min(task.end, week.end) (clampedSegment), and the
concatenation of the segment day spans is exactly the day span of the
original task range, with no gaps or overlaps. -/
theorem C1_calculateTaskSegments_multiweek (month today : Int) (task : Task)
    (h1 : task.start ≤ task.stop)
    (h2 : startOfWeek (startOfMonth month) ≤ task.start)
    (h3 : task.stop ≤ endOfWeek (endOfMonth month)) :
    calculateTaskSegments task (generateMonthGrid month today)
      = ((generateMonthGrid month today).filter (weekOverlaps task)).map
          (clampedSegment task) ∧
    ((calculateTaskSegments task (generateMonthGrid month today)).map
      (fun s => eachDayOfInterval s.startDate s.endDate)).flatten
      = eachDayOfInterval task.start task.stop := by
  obtain ⟨k, hk1, hspan, hgrid⟩ := generateMonthGrid_eq_gridWeeks month today
  rw [hgrid]
  refine ⟨calculateTaskSegments_gridWeeks _ (fun d => rfl) task k _, ?_⟩
  rw [calculateTaskSegments_gridWeeks _ (fun d => rfl) task k _, List.map_map]
  have hcomp : ((fun s : TaskSegment => eachDayOfInterval s.startDate s.endDate)
      ∘ clampedSegment task)
      = fun w => eachDayOfInterval (max task.start w.startDate) (min task.stop w.endDate) :=
    rfl
  rw [hcomp, flatten_spans task h1 _ k _ (by omega) (by omega), max_eq_left h2]

/-- Witness for C1: the spec example task 2024-03-05..2024-03-20 against
the March 2024 grid. -/
theorem C1_multiweek_witness :
    calculateTaskSegments marchTask (generateMonthGrid (daysFromCivil 2024 3 1) 0)
      = ((generateMonthGrid (daysFromCivil 2024 3 1) 0).filter (weekOverlaps marchTask)).map
          (clampedSegment marchTask) ∧
    ((calculateTaskSegments marchTask (generateMonthGrid (daysFromCivil 2024 3 1) 0)).map
      (fun s => eachDayOfInterval s.startDate s.endDate)).flatten
      = eachDayOfInterval marchTask.start marchTask.stop :=
  C1_calculateTaskSegments_multiweek (daysFromCivil 2024 3 1) 0 marchTask
    (by decide) (by decide) (by decide)

theorem gridWeeks_filter_singleton (task : Task) (f : Int → CalendarDay)
    (hf : ∀ d, (f d).date = d) :
    ∀ (k : Nat) (a : Int) (w : WeekRow), w ∈ gridWeeks f a k →
      w.startDate ≤ task.start → task.stop ≤ w.endDate → task.start ≤ task.stop →
      (gridWeeks f a k).filter (weekOverlaps task) = [w] := by
  intro k
  induction k with
  | zero => intro a w hw; simp [gridWeeks] at hw
  | succ m ih =>
      intro a w hw hws hwe hts
      rw [gridWeeks] at hw ⊢
      rcases List.mem_cons.mp hw with h | h
      · subst h
        have hws2 : a ≤ task.start := hws
        have hwe2 : task.stop ≤ a + 6 := hwe
        rw [List.filter_cons]
        have hov : weekOverlaps task
            { days := (intRange a 7).map f, startDate := a, endDate := a + 6 } = true := by
          unfold weekOverlaps
          simp
          omega
        rw [hov]
        simp only [if_true]
        rw [gridWeeks_filter_none task f m (a + 7) (by omega)]
      · obtain ⟨hsh1, hsh2, hsh3⟩ := gridWeeks_mem_shape f hf m (a + 7) w h
        rw [List.filter_cons]
        have hov : weekOverlaps task
            { days := (intRange a 7).map f, startDate := a, endDate := a + 6 } = false := by
          unfold weekOverlaps
          simp
          omega
        rw [hov]
        simp only [Bool.false_eq_true, if_false]
        exact ih (a + 7) w h hws hwe hts

/-- C7: a well-formed task range confined to a single week row of the
month grid yields exactly one segment, whose widthInColumns equals the
inclusive day count of the task range. -/
theorem C7_singleWeek_segment (month today : Int) (task : Task) (w : WeekRow)
    (hw : w ∈ generateMonthGrid month today)
    (h1 : task.start ≤ task.stop)
    (h2 : w.startDate ≤ task.start)
    (h3 : task.stop ≤ w.endDate) :
    ∃ s : TaskSegment,
      calculateTaskSegments task (generateMonthGrid month today) = [s] ∧
      (s.widthInColumns : Int) = dayCountInclusive task.start task.stop := by
  obtain ⟨k, _, _, hgrid⟩ := generateMonthGrid_eq_gridWeeks month today
  rw [hgrid] at hw ⊢
  rw [calculateTaskSegments_gridWeeks _ (fun d => rfl) task k _,
    gridWeeks_filter_singleton task _ (fun d => rfl) k _ w hw h2 h3 h1]
  refine ⟨clampedSegment task w, rfl, ?_⟩
  show (((min task.stop w.endDate - w.startDate).toNat
      - (max task.start w.startDate - w.startDate).toNat + 1 : Nat) : Int)
    = dayCountInclusive task.start task.stop
  rw [max_eq_left h2, min_eq_left h3]
  unfold dayCountInclusive differenceInDays
  omega

/-- Witness for C7: the task 2024-03-12..2024-03-14 inside the week row
2024-03-10..2024-03-16 of the March 2024 grid. -/
theorem C7_singleWeek_witness :
    ∃ s : TaskSegment,
      calculateTaskSegments midTask (generateMonthGrid (daysFromCivil 2024 3 1) 0) = [s] ∧
      (s.widthInColumns : Int) = dayCountInclusive midTask.start midTask.stop :=
  C7_singleWeek_segment (daysFromCivil 2024 3 1) 0 midTask marchWeek
    (by decide) (by decide) (by decide) (by decide)

theorem segmentsOverlap_symm (s t : TaskSegment) :
    segmentsOverlap s t = segmentsOverlap t s := by
  simp only [segmentsOverlap]
  rw [Bool.or_comm]

theorem segmentsOverlap_set_rowIndex (s t : TaskSegment) (j : Nat) :
    segmentsOverlap { s with rowIndex := j } t = segmentsOverlap s t := rfl

theorem firstFitRow_le (seg : TaskSegment) :
    ∀ rows : List (List TaskSegment), firstFitRow seg rows ≤ rows.length := by
  intro rows
  induction rows with
  | nil => exact le_refl 0
  | cons row rest ih =>
      rw [firstFitRow]
      split
      · simpa using ih
      · simp

theorem firstFitRow_spec (seg : TaskSegment) :
    ∀ rows : List (List TaskSegment), firstFitRow seg rows < rows.length →
      ∀ x ∈ rows.getD (firstFitRow seg rows) [], segmentsOverlap seg x = false := by
  intro rows
  induction rows with
  | nil => intro h; simp at h
  | cons row rest ih =>
      by_cases hany : row.any (fun existing => segmentsOverlap seg existing) = true
      · rw [firstFitRow, if_pos hany]
        intro hlt x hx
        rw [List.getD_cons_succ] at hx
        exact ih (by simpa using hlt) x hx
      · rw [firstFitRow, if_neg hany]
        intro _ x hx
        rw [List.getD_cons_zero] at hx
        have hall := List.any_eq_false.mp (Bool.eq_false_iff.mpr hany)
        have := hall x hx
        simpa using this

theorem placeAt_getD (seg : TaskSegment) :
    ∀ (rows : List (List TaskSegment)) (i j : Nat), i ≤ rows.length →
      (placeAt seg rows i).getD j []
        = if j = i then rows.getD j [] ++ [seg] else rows.getD j [] := by
  intro rows
  induction rows with
  | nil =>
      intro i j hi
      have hi0 : i = 0 := by simpa using hi
      subst hi0
      cases j with
      | zero => simp [placeAt]
      | succ jj => simp [placeAt]
  | cons row rest ih =>
      intro i j hi
      cases i with
      | zero =>
          cases j with
          | zero => simp [placeAt]
          | succ jj => simp [placeAt]
      | succ ii =>
          cases j with
          | zero => simp [placeAt]
          | succ jj =>
              simp only [placeAt, List.getD_cons_succ]
              rw [ih ii jj (by simpa using hi)]
              by_cases h : jj = ii
              · rw [if_pos h, if_pos (by omega)]
              · rw [if_neg h, if_neg (by omega)]

theorem assignLoop_sound :
    ∀ (pending : List TaskSegment) (rows : List (List TaskSegment)),
      List.Pairwise (fun s t => segmentsOverlap s t = true → s.rowIndex ≠ t.rowIndex)
        (assignLoop rows pending) ∧
      ∀ s ∈ assignLoop rows pending, ∀ x ∈ rows.getD s.rowIndex [],
        segmentsOverlap s x = false := by
  intro pending
  induction pending with
  | nil =>
      intro rows
      exact ⟨List.Pairwise.nil, by simp [assignLoop]⟩
  | cons seg rest ih =>
      intro rows
      obtain ⟨ihP, ihS⟩ :=
        ih (placeAt { seg with rowIndex := firstFitRow seg rows } rows (firstFitRow seg rows))
      constructor
      · rw [assignLoop]
        refine List.Pairwise.cons ?_ ihP
        intro t ht hover heq
        have hmem : { seg with rowIndex := firstFitRow seg rows }
            ∈ (placeAt { seg with rowIndex := firstFitRow seg rows } rows
                (firstFitRow seg rows)).getD (firstFitRow seg rows) [] := by
          rw [placeAt_getD _ _ _ _ (firstFitRow_le seg rows), if_pos rfl]
          simp
        have heq2 : firstFitRow seg rows = t.rowIndex := heq
        have hx : { seg with rowIndex := firstFitRow seg rows }
            ∈ (placeAt { seg with rowIndex := firstFitRow seg rows } rows
                (firstFitRow seg rows)).getD t.rowIndex [] := by
          rw [← heq2]
          exact hmem
        have hfalse := ihS t ht _ hx
        rw [segmentsOverlap_symm] at hfalse
        rw [hfalse] at hover
        exact Bool.false_ne_true hover
      · intro s hs x hx
        rw [assignLoop] at hs
        rcases List.mem_cons.mp hs with h | h
        · subst h
          by_cases hlt : firstFitRow seg rows < rows.length
          · have := firstFitRow_spec seg rows hlt x hx
            rw [segmentsOverlap_set_rowIndex]
            exact this
          · have hge : rows.length ≤ firstFitRow seg rows := le_of_not_lt hlt
            rw [List.getD_eq_default _ _ hge] at hx
            simp at hx
        · apply ihS s h x
          rw [placeAt_getD _ _ _ _ (firstFitRow_le seg rows)]
          by_cases hj : s.rowIndex = firstFitRow seg rows
          · rw [if_pos hj]
            exact List.mem_append_left _ hx
          · rw [if_neg hj]
            exact hx

/-- C3: after calculateRowIndices, no two placed segments whose column
intervals intersect (segmentsOverlap) carry the same rowIndex. -/
theorem C3_stacking_no_shared_row (segments : List TaskSegment) :
    List.Pairwise (fun s t => segmentsOverlap s t = true → s.rowIndex ≠ t.rowIndex)
      (calculateRowIndices segments) := by
  unfold calculateRowIndices
  exact (assignLoop_sound (sortByStartColumn segments) []).1

/-- Witness for C2: the March 2024 grid instantiates the grid-shape
properties; its concatenated day count is a multiple of 7. -/
theorem C2_grid_witness :
    ((generateMonthGrid (daysFromCivil 2024 3 1) 0).map WeekRow.days).flatten.length % 7
      = 0 :=
  (C2_generateMonthGrid_shape (daysFromCivil 2024 3 1) 0).1

/-- Witness for C3: the spec example of two overlapping three-day
segments (columns 1..3 and 2..4) stacked by calculateRowIndices. -/
theorem C3_stacking_witness :
    List.Pairwise (fun s t => segmentsOverlap s t = true → s.rowIndex ≠ t.rowIndex)
      (calculateRowIndices
        [{ task := sampleTask, startDate := 0, endDate := 0
           startColumn := 1, widthInColumns := 3, rowIndex := 0 },
         { task := sampleTask, startDate := 0, endDate := 0
           startColumn := 2, widthInColumns := 3, rowIndex := 0 }]) :=
  C3_stacking_no_shared_row
    [{ task := sampleTask, startDate := 0, endDate := 0
       startColumn := 1, widthInColumns := 3, rowIndex := 0 },
     { task := sampleTask, startDate := 0, endDate := 0
       startColumn := 2, widthInColumns := 3, rowIndex := 0 }]

/-- Witness for C8: normalizing the unordered pair (5, 3) produces the
ordered range with start ≤ end. -/
theorem C8_normalize_witness :
    (normalizeDateRange 5 3).start ≤ (normalizeDateRange 5 3).stop :=
  (C8_normalizeDateRange_props 5 3).2.2

end Scheduler
